import Mathlib

/-!
Verification of the framing engine of the Elelabs EZSP firmware utility
(`Elelabs_EzspFwUtility.py`), shallowly embedded in Lean.  Bytes are
modelled as `Nat` (all source values stay below 256; masks are explicit
where the source has them), byte strings as `List Nat`, and the Python
`bytes.replace` primitive is modelled exactly, including its sequential,
left-to-right, non-overlapping semantics.
-/

namespace Elelabs

/-- Python `bytes.replace` for a one-byte pattern `a`: every occurrence of
`a` is replaced by `r`, scanning left to right, never rescanning the
replacement text. -/
def replace1 (a : Nat) (r : List Nat) : List Nat → List Nat
  | [] => []
  | c :: t => if c = a then r ++ replace1 a r t else c :: replace1 a r t

/-- Python `bytes.replace` for a two-byte pattern `[a, b]`: occurrences are
found left to right, non-overlapping, and the replacement is not rescanned. -/
def replace2 (a b : Nat) (r : List Nat) : List Nat → List Nat
  | [] => []
  | [c] => [c]
  | c :: d :: t =>
    if c = a ∧ d = b then r ++ replace2 a b r t
    else c :: replace2 a b r (d :: t)

/-- `AshProtocolInterface.replaceReservedBytes`: six sequential
`bytes.replace` calls, escaping 7D, 7E, 11, 13, 18, 1A (in that order). -/
def replaceReservedBytes (msg : List Nat) : List Nat :=
  replace1 0x1A [0x7D, 0x3A]
    (replace1 0x18 [0x7D, 0x38]
      (replace1 0x13 [0x7D, 0x33]
        (replace1 0x11 [0x7D, 0x31]
          (replace1 0x7E [0x7D, 0x5E]
            (replace1 0x7D [0x7D, 0x5D] msg)))))

/-- `AshProtocolInterface.revertEscapedBytes`: six sequential
`bytes.replace` calls, undoing the escapes in the same order. -/
def revertEscapedBytes (msg : List Nat) : List Nat :=
  replace2 0x7D 0x3A [0x1A]
    (replace2 0x7D 0x38 [0x18]
      (replace2 0x7D 0x33 [0x13]
        (replace2 0x7D 0x31 [0x11]
          (replace2 0x7D 0x5E [0x7E]
            (replace2 0x7D 0x5D [0x7D] msg)))))

/-- `RANDOMIZE_START` of `AshProtocolInterface`. -/
def RANDOMIZE_START : Nat := 0x42

/-- `RANDOMIZE_SEQ` of `AshProtocolInterface`. -/
def RANDOMIZE_SEQ : Nat := 0xB8

/-- One step of the whitening LFSR (the `if rand % 2` update in
`dataRandomize`). -/
def randNext (r : Nat) : Nat :=
  if r % 2 = 1 then (r >>> 1) ^^^ RANDOMIZE_SEQ else r >>> 1

/-- The loop of `AshProtocolInterface.dataRandomize`, with the LFSR state
made explicit. -/
def dataRandomizeFrom (r : Nat) : List Nat → List Nat
  | [] => []
  | x :: t => (x ^^^ r) :: dataRandomizeFrom (randNext r) t

/-- `AshProtocolInterface.dataRandomize`. -/
def dataRandomize (frame : List Nat) : List Nat :=
  dataRandomizeFrom RANDOMIZE_START frame

/-- One shift round of the CRC-16/CCITT (poly 0x1021) register. -/
def crcHqxRound (c : Nat) : Nat :=
  if c &&& 0x8000 ≠ 0 then ((c <<< 1) ^^^ 0x1021) &&& 0xFFFF
  else (c <<< 1) &&& 0xFFFF

/-- Processing one byte of `binascii.crc_hqx`. -/
def crcHqxByte (c b : Nat) : Nat :=
  Nat.iterate crcHqxRound 8 (c ^^^ ((b &&& 0xFF) <<< 8))

/-- `binascii.crc_hqx data init` as used by the source. -/
def crc_hqx (data : List Nat) (init : Nat) : Nat :=
  data.foldl crcHqxByte init

/-- The mutable counters of `AshProtocolInterface` (`ackNum`, `frmNum`),
both initialised to 0 in `__init__`. -/
structure AshState where
  ackNum : Nat
  frmNum : Nat
deriving DecidableEq, Repr

/-- Counter state at session start (`self.ackNum = 0; self.frmNum = 0`). -/
def ashInit : AshState := ⟨0, 0⟩

/-- The control byte computed by `ashFrameBuilder`. -/
def ashControlByte (s : AshState) : Nat :=
  (((s.ackNum <<< 0) &&& 0xFF) ||| (((s.frmNum % 8) <<< 4) &&& 0xFF)) &&& 0xFF

/-- `AshProtocolInterface.ashFrameBuilder`: builds the stuffed DATA frame
and advances both counters modulo 8. -/
def ashFrameBuilder (s : AshState) (ezsp_frame : List Nat) :
    List Nat × AshState :=
  let body := ashControlByte s :: dataRandomize ezsp_frame
  let crc := crc_hqx body 0xFFFF
  (replaceReservedBytes (body ++ [crc >>> 8, crc &&& 0xFF]) ++ [0x7E],
   ⟨(s.ackNum + 1) % 8, (s.frmNum + 1) % 8⟩)

/-- `AshProtocolInterface.sendAck`: the ACK frame written to the serial
line; the method does not touch the counter state. -/
def sendAckFrame (ackNum : Nat) : List Nat :=
  let ack := [(ackNum &&& 0x07) ||| 0x80]
  let crc := crc_hqx ack 0xFFFF
  replaceReservedBytes (ack ++ [crc >>> 8, crc &&& 0xFF]) ++ [0x7E]

/-- `EzspProtocolInterface.ezspFrameBuilder`: returns the frame and the
advanced `sequenceNum` (`(seq + 1) % 255`).  The version ≥ 8 branch
overwrites indices 2, 3, 4 of the already-assembled buffer, exactly as the
source does. -/
def ezspFrameBuilder (seq v : Nat) (command : List Nat) : List Nat × Nat :=
  let fr := seq :: 0x00 :: ((if 5 ≤ v then [0xFF, 0x00] else []) ++ command)
  let fr2 := if 8 ≤ v then
      ((fr.set 2 0x01).set 3 (command.headD 0 &&& 0xFF)).set 4
        (command.headD 0 >>> 8)
    else fr
  (fr2, (seq + 1) % 255)

/-- `HdlcLiteProtocolInterface.HDLC_FLAG`. -/
def HDLC_FLAG : Nat := 0x7E

/-- `HdlcLiteProtocolInterface.HDLC_ESCAPE`. -/
def HDLC_ESCAPE : Nat := 0x7D

/-- `HdlcLiteProtocolInterface.HDLC_FCS_INIT`. -/
def HDLC_FCS_INIT : Nat := 0xFFFF

/-- `HdlcLiteProtocolInterface.HDLC_FCS_POLY`. -/
def HDLC_FCS_POLY : Nat := 0x8408

/-- `HdlcLiteProtocolInterface.HDLC_FCS_GOOD`. -/
def HDLC_FCS_GOOD : Nat := 0xF0B8

/-- One shift round of the FCS16 table generator
(`fcs = (fcs >> 1) ^ polynomial if fcs & 1 else fcs >> 1`). -/
def fcsRound (v : Nat) : Nat :=
  if v &&& 1 ≠ 0 then (v >>> 1) ^^^ HDLC_FCS_POLY else v >>> 1

/-- One entry of `mkfcstab`: eight rounds applied to the byte value. -/
def fcstabEntry (b : Nat) : Nat := (Nat.iterate fcsRound 8 b) &&& 0xFFFF

/-- `HdlcLiteProtocolInterface.fcs16`. -/
def fcs16 (b fcs : Nat) : Nat :=
  (fcs >>> 8) ^^^ fcstabEntry ((fcs ^^^ b) &&& 0xFF)

/-- The receive loop of `HdlcLiteProtocolInterface.getResponse` over a
finite stream of received bytes, returning the accumulated packet and the
running FCS.  Stream exhaustion models the 3-second timeout: a timed-out
`serial.read` yields `b''`, which `int.from_bytes` turns into the byte 0,
and the loop body still appends it (XORed with 0x20 when it was consumed
as the second byte of an escape) before the loop exits. -/
def hdlcLoop : List Nat → List Nat → Nat → List Nat × Nat
  | [], packet, fcs => (packet ++ [0], fcs16 0 fcs)
  | b :: rest, packet, fcs =>
    if b = HDLC_FLAG then
      if packet.isEmpty then hdlcLoop rest packet fcs
      else (packet, fcs)
    else if b = HDLC_ESCAPE then
      match rest with
      | [] => (packet ++ [0 ^^^ 0x20], fcs16 (0 ^^^ 0x20) fcs)
      | b2 :: rest2 =>
        hdlcLoop rest2 (packet ++ [b2 ^^^ 0x20]) (fcs16 (b2 ^^^ 0x20) fcs)
    else hdlcLoop rest (packet ++ [b]) (fcs16 b fcs)

/-- `HdlcLiteProtocolInterface.getResponse` on a finite received stream:
`none` models the `(-1, None)` returns (empty packet, or bad FCS
residual); otherwise the packet with the two FCS bytes stripped. -/
def hdlcGetResponse (stream : List Nat) : Option (List Nat) :=
  let pf := hdlcLoop stream [] HDLC_FCS_INIT
  if pf.1.isEmpty then none
  else if pf.2 ≠ HDLC_FCS_GOOD then none
  else some pf.1.dropLast.dropLast

/-- Byte-list version of Python list/string containment scanning: does
`pat` occur at the head? -/
def leadMatch : List Nat → List Nat → Bool
  | [], _ => true
  | _ :: _, [] => false
  | a :: as, b :: bs => a == b && leadMatch as bs

/-- Python `pat in s` substring containment for byte strings, as used by
the `".gbl" in filename` check in `ElelabsUtilities.flash`. -/
def hasSub (pat : List Nat) : List Nat → Bool
  | [] => pat.isEmpty
  | c :: t => leadMatch pat (c :: t) || hasSub pat t

/-- Modelled from the spec: the "filename ends in `.gbl` or `.ebl`" suffix
test the claim quantifies over (the source itself tests containment). -/
def endsWithSpec (suf s : List Nat) : Bool :=
  leadMatch suf.reverse s.reverse

/-- ASCII bytes of ".gbl". -/
def GBL : List Nat := [0x2E, 0x67, 0x62, 0x6C]

/-- ASCII bytes of ".ebl". -/
def EBL : List Nat := [0x2E, 0x65, 0x62, 0x6C]

/-- Serial-session events: `SerialInterface.open` and `.close`. -/
inductive SessEv where
  | opn : SessEv
  | cls : SessEv
deriving DecidableEq, Repr

/-- Number of `open` events in a trace. -/
def countOpn (evs : List SessEv) : Nat := evs.count SessEv.opn

/-- Number of `close` events in a trace. -/
def countCls (evs : List SessEv) : Nat := evs.count SessEv.cls

/-- A trace is balanced when each successful open is paired with a close
(the calls are strictly sequential, so counting suffices). -/
def balanced (evs : List SessEv) : Bool := countOpn evs == countCls evs

/-- `AdapterModeProbeStatus`: the four classification results. -/
inductive AdapterStatus where
  | zigbee : AdapterStatus
  | thread : AdapterStatus
  | btl : AdapterStatus
  | error : AdapterStatus
deriving DecidableEq, Repr

/-- Outcome of `ElelabsUtilities.probe`: a returned status together with
whether an Elelabs board name was identified, or an uncaught exception. -/
inductive ProbeOut where
  | ret : AdapterStatus → Bool → ProbeOut
  | exn : ProbeOut
deriving DecidableEq, Repr

/-- The environment a single `probe` run reacts to: whether the EZSP init
handshake succeeds, whether one of the follow-up EZSP commands raises
(`sendEzspCommand` raises on ASH failure, and a nonzero `getValue` status
leaves `firmware_version` unbound), the same two for Spinel, whether the
adapter self-identifies as Elelabs, whether the configured baud rate is
already 115200, and whether the bootloader-mode read times out. -/
structure ProbeEnv where
  ezspInitOk : Bool
  ezspRaise : Bool
  spinelInitOk : Bool
  spinelRaise : Bool
  elelabs : Bool
  baud115200 : Bool
  lineEmpty : Bool
deriving DecidableEq, Repr

/-- `ElelabsUtilities.probe`: result and serial open/close trace. -/
def probeModel (e : ProbeEnv) : ProbeOut × List SessEv :=
  if e.ezspInitOk then
    if e.ezspRaise then (ProbeOut.exn, [SessEv.opn])
    else (ProbeOut.ret AdapterStatus.zigbee e.elelabs, [SessEv.opn, SessEv.cls])
  else if e.spinelInitOk then
    if e.spinelRaise then (ProbeOut.exn, [SessEv.opn])
    else (ProbeOut.ret AdapterStatus.thread e.elelabs, [SessEv.opn, SessEv.cls])
  else
    let pre := if e.baud115200 then [SessEv.opn]
      else [SessEv.opn, SessEv.cls, SessEv.opn]
    if e.lineEmpty then (ProbeOut.ret AdapterStatus.error false, pre ++ [SessEv.cls])
    else (ProbeOut.ret AdapterStatus.btl false, pre ++ [SessEv.cls])

/-- Python return values of `restart`/`flash`: an uncaught exception, the
implicit `None` (also reached by falling off the end), or an integer. -/
inductive PyRet where
  | exn : PyRet
  | retNone : PyRet
  | ret : Int → PyRet
deriving DecidableEq, Repr

/-- Environment of one `restart` run: the first probe, whether the EZSP
init/launch commands of the Zigbee branch raise, whether the launch status
is 0, whether the second Spinel init of the Thread branch succeeds, and
the final probe. -/
structure RestartEnv where
  p1 : ProbeEnv
  zgRaise : Bool
  launchOk : Bool
  sp2Ok : Bool
  p2 : ProbeEnv
deriving DecidableEq, Repr

/-- The body of `ElelabsUtilities.restart` (`btl = true` for mode 'btl')
as a function of the two probe outcomes and the branch conditions: the
Thread branch returns -1 without closing when no Elelabs board name is
known; the Zigbee branch closes before its error return; the Bootloader
branch reopens, writes '2', closes, and re-probes; the Error status falls
off the end of the function (implicit None). -/
def restartCore (btl : Bool) (p1 : ProbeOut × List SessEv)
    (zgRaise launchOk sp2Ok : Bool) (p2 : ProbeOut × List SessEv) :
    PyRet × List SessEv :=
  match p1 with
  | (ProbeOut.exn, ev1) => (PyRet.exn, ev1)
  | (ProbeOut.ret st hasName, ev1) =>
    match st with
    | AdapterStatus.zigbee =>
      if btl then
        if zgRaise then (PyRet.exn, ev1 ++ [SessEv.opn])
        else if ¬ launchOk then
          (PyRet.ret (-1), ev1 ++ [SessEv.opn, SessEv.cls])
        else
          match p2 with
          | (ProbeOut.exn, ev2) =>
            (PyRet.exn, ev1 ++ [SessEv.opn, SessEv.cls] ++ ev2)
          | (ProbeOut.ret st2 _, ev2) =>
            (PyRet.ret (if st2 = AdapterStatus.btl then 0 else -1),
             ev1 ++ [SessEv.opn, SessEv.cls] ++ ev2)
      else (PyRet.ret 0, ev1)
    | AdapterStatus.thread =>
      if btl then
        if ¬ hasName then (PyRet.ret (-1), ev1 ++ [SessEv.opn])
        else if ¬ sp2Ok then
          (PyRet.ret (-1), ev1 ++ [SessEv.opn, SessEv.cls])
        else
          match p2 with
          | (ProbeOut.exn, ev2) =>
            (PyRet.exn, ev1 ++ [SessEv.opn, SessEv.cls] ++ ev2)
          | (ProbeOut.ret st2 _, ev2) =>
            (PyRet.ret (if st2 = AdapterStatus.btl then 0 else -1),
             ev1 ++ [SessEv.opn, SessEv.cls] ++ ev2)
      else (PyRet.ret 0, ev1)
    | AdapterStatus.btl =>
      if btl then (PyRet.ret 0, ev1)
      else
        match p2 with
        | (ProbeOut.exn, ev2) =>
          (PyRet.exn, ev1 ++ [SessEv.opn, SessEv.cls] ++ ev2)
        | (ProbeOut.ret st2 _, ev2) =>
          (PyRet.ret
            (if st2 = AdapterStatus.zigbee ∨ st2 = AdapterStatus.thread
             then 0 else -1),
           ev1 ++ [SessEv.opn, SessEv.cls] ++ ev2)
    | AdapterStatus.error => (PyRet.retNone, ev1)

/-- `ElelabsUtilities.restart`: result and serial open/close trace,
including the traces of the probes it runs. -/
def restartModel (btl : Bool) (r : RestartEnv) : PyRet × List SessEv :=
  restartCore btl (probeModel r.p1) r.zgRaise r.launchOk r.sp2Ok
    (probeModel r.p2)

/-- Environment of one `flash` run: the restart it performs, whether the
XMODEM ready character 'C' arrives in time, whether `modem.send`
succeeds, and the final probe. -/
structure FlashEnv where
  r : RestartEnv
  readyOk : Bool
  sendOk : Bool
  p3 : ProbeEnv
deriving DecidableEq, Repr

/-- The upload part of `ElelabsUtilities.flash` after the restart: it
opens the port at 115200 and, exactly as in the source, the ready-wait
failure return and the upload failure return do not close it; the success
path closes before the final probe. -/
def flashUploadCore (readyOk sendOk : Bool) (p3 : ProbeOut × List SessEv)
    (ev1 : List SessEv) : PyRet × List SessEv :=
  let ev := ev1 ++ [SessEv.opn]
  if ¬ readyOk then (PyRet.retNone, ev)
  else if ¬ sendOk then (PyRet.retNone, ev)
  else
    match p3 with
    | (ProbeOut.exn, ev3) => (PyRet.exn, ev ++ [SessEv.cls] ++ ev3)
    | (ProbeOut.ret _ _, ev3) => (PyRet.retNone, ev ++ [SessEv.cls] ++ ev3)

/-- The body of `ElelabsUtilities.flash`: the filename check by substring
containment (`".gbl" in filename`), then `restart("btl")` (whose returned
`None` is falsy in Python, so only a nonzero integer status aborts), then
the upload. -/
def flashCore (validOk : Bool) (rres : PyRet × List SessEv)
    (readyOk sendOk : Bool) (p3 : ProbeOut × List SessEv) :
    PyRet × List SessEv :=
  if ¬ validOk then (PyRet.retNone, [])
  else
    match rres with
    | (PyRet.exn, ev1) => (PyRet.exn, ev1)
    | (PyRet.ret i, ev1) =>
      if i ≠ 0 then (PyRet.retNone, ev1)
      else flashUploadCore readyOk sendOk p3 ev1
    | (PyRet.retNone, ev1) => flashUploadCore readyOk sendOk p3 ev1

/-- `ElelabsUtilities.flash`: result and serial open/close trace. -/
def flashModel (filename : List Nat) (e : FlashEnv) : PyRet × List SessEv :=
  flashCore (hasSub GBL filename || hasSub EBL filename)
    (restartModel true e.r) e.readyOk e.sendOk (probeModel e.p3)

/-- `AshProtocolInterface.sendAck` as a state transformer: it emits the
ACK frame and leaves the counter state untouched (the method body never
writes `self.ackNum` or `self.frmNum`). -/
def sendAck (s : AshState) (ackNum : Nat) : List Nat × AshState :=
  (sendAckFrame ackNum, s)

/-- Folding a sequence of outbound DATA frames through `ashFrameBuilder`,
keeping only the counter state. -/
def ashRun (s : AshState) (frames : List (List Nat)) : AshState :=
  frames.foldl (fun st f => (ashFrameBuilder st f).2) s

/-- Initial `sequenceNum` of `EzspProtocolInterface` (`__init__` sets 0). -/
def ezspInitSeq : Nat := 0

/-- Folding a sequence of EZSP commands through `ezspFrameBuilder`,
keeping only the `sequenceNum`. -/
def ezspSeqRun (seq : Nat) (v : Nat) (cmds : List (List Nat)) : Nat :=
  cmds.foldl (fun sq c => (ezspFrameBuilder sq v c).2) seq

/-- `SpinelProtocolInterface.encode_i`, the `while data:` loop written with
an explicit fuel argument; the fuel only bounds the number of iterations
and `encode_i` below supplies enough of it, so the semantics is exactly
the source's loop. -/
def encodeGo : Nat → Nat → List Nat
  | _, 0 => []
  | 0, _ + 1 => []
  | fuel + 1, data =>
    let value := data &&& 0x7F
    let d2 := data >>> 7
    (if d2 ≠ 0 then value ||| 0x80 else value) :: encodeGo fuel d2

/-- `SpinelProtocolInterface.encode_i`: unsigned LEB128, 7 bits per byte,
continuation bit 0x80; `encode_i 0 = []`. -/
def encode_i (data : Nat) : List Nat := encodeGo data data

/-- Modelled from the spec: the unsigned LEB128 decoder ("7 bits per byte,
continuation bit 0x80") that the spec's varint round-trip law refers to;
the source contains no decoder. -/
def decode_varint : List Nat → Nat
  | [] => 0
  | b :: t => (b &&& 0x7F) + 128 * decode_varint t

/-- `SpinelProtocolInterface.CMD_PROP_VALUE_GET`. -/
def CMD_PROP_VALUE_GET : Nat := 2

/-- `SpinelProtocolInterface.HEADER_DEFAULT`. -/
def HEADER_DEFAULT : Nat := 0x81

/-- `SpinelProtocolInterface.encode_packet`: default header byte, varint
command id, then the payload. -/
def encode_packet (command_id : Nat) (payload : List Nat) : List Nat :=
  HEADER_DEFAULT :: (encode_i command_id ++ payload)

/-- `SpinelProtocolInterface.propValueGet`, as a function of the property
id and of the response returned by `sendSpinelCommand`.  The first
component is the request packet (always sent, before the id is examined);
the second is `none` when the method raises (`prop_id > 0xFFFF`) and
otherwise the stripped property value. -/
def propValueGet (prop_id : Nat) (resp : List Nat) :
    List Nat × Option (List Nat) :=
  (encode_packet CMD_PROP_VALUE_GET (encode_i prop_id),
   if 0xFFFF < prop_id then none
   else if 0xFF < prop_id then some (resp.drop 4)
   else some (resp.drop 3))

/-- The ASH escape table as a partial map from a reserved byte to the
second byte of its escape sequence (7D→5D, 7E→5E, 11→31, 13→33, 18→38,
1A→3A). -/
def escTail (b : Nat) : Option Nat :=
  if b = 0x7D then some 0x5D
  else if b = 0x7E then some 0x5E
  else if b = 0x11 then some 0x31
  else if b = 0x13 then some 0x33
  else if b = 0x18 then some 0x38
  else if b = 0x1A then some 0x3A
  else none

/-- The per-byte output of the stuffing pipeline after the escape tails in
`P` have already been unescaped again: a reserved byte whose tail is still
pending maps to its two-byte escape, everything else to itself. -/
def codeP (P : List Nat) (b : Nat) : List Nat :=
  match escTail b with
  | none => [b]
  | some t => if t ∈ P then [b] else [0x7D, t]

/-- Escape tails that a later un-escape pass can falsely consume when they
directly follow a raw 0x7D. -/
def forb : List Nat := [0x5E, 0x31, 0x33, 0x38, 0x3A]

/-- Input class on which the sequential-replace round trip is exact: no
0x7D byte is immediately followed by one of the five later escape tails. -/
def goodAsh : List Nat → Bool
  | a :: b :: t => (decide (¬(a = 0x7D ∧ b ∈ forb))) && goodAsh (b :: t)
  | _ => true

/-- Shape invariant of the intermediate strings of the un-escape pipeline,
as a list of per-byte chunks: every chunk is a two-byte escape `[7D, z]`
(`z ≠ 7D`), a non-7D singleton, or a raw `[7D]` that is not followed by
the tail `y` the next pass consumes. -/
inductive Chunks (y : Nat) : List (List Nat) → Prop
  | nil : Chunks y []
  | esc (z : Nat) (L : List (List Nat)) : z ≠ 0x7D → Chunks y L →
      Chunks y ([0x7D, z] :: L)
  | plain (c : Nat) (L : List (List Nat)) : c ≠ 0x7D → Chunks y L →
      Chunks y ([c] :: L)
  | lone (L : List (List Nat)) : Chunks y L → L.flatten.head? ≠ some y →
      Chunks y ([0x7D] :: L)

theorem dataRandomizeFrom_involution (r : Nat) (x : List Nat) :
    dataRandomizeFrom r (dataRandomizeFrom r x) = x := by
  induction x generalizing r with
  | nil => rfl
  | cons b t ih =>
    simp [dataRandomizeFrom, Nat.xor_assoc, ih]

/-- Claim C2: whitening is an involution: for every byte string `x`,
`dataRandomize (dataRandomize x) = x`, where `dataRandomize` is the
byte-wise XOR stream with 8-bit LFSR state starting at 0x42 and update
rule `next = (state >>> 1) ^^^ 0xB8` when the LSB is 1, else
`state >>> 1`. -/
theorem C2_whitening_involution (x : List Nat) :
    dataRandomize (dataRandomize x) = x :=
  dataRandomizeFrom_involution RANDOMIZE_START x

/-- Claim C3, counterexample: the CRC-16/CCITT (poly 0x1021) of the single
byte 0x80 with initial value 0xFFFF is not 0x2672 (it is 0x7078, matching
the real ASH ACK frame 80 70 78 7E; the same model reproduces the source's
hard-coded RSTACK CRC 38 BC for byte C0). -/
theorem C3_crc_counterexample : ¬ (crc_hqx [0x80] 0xFFFF = 0x2672) := by
  decide

/-- Claim C3, amended: the CRC-16/CCITT (poly 0x1021) of the single byte
0x80 with initial value 0xFFFF — the CRC `sendAck` computes for an ACK
frame with `ack_num = 0` — equals 0x7078, so the ACK frame on the wire is
80 70 78 7E.  (As a cross-check against the source's own constant, the CRC
of the RSTACK command byte C0 is 38 BC, the bytes hard-coded in
`RSTACK_FRAME_CMD`.) -/
theorem C3_ack_crc :
    crc_hqx [0x80] 0xFFFF = 0x7078 ∧
    sendAckFrame 0 = [0x80, 0x70, 0x78, 0x7E] ∧
    crc_hqx [0xC0] 0xFFFF = 0x38BC := by
  decide

/-- A probe environment classified as Zigbee with an Elelabs board name. -/
def envZigbee : ProbeEnv := ⟨true, false, false, false, true, true, false⟩

/-- A probe environment classified as Bootloader. -/
def envBtl : ProbeEnv := ⟨false, false, false, false, false, true, false⟩

/-- A flash environment whose restart succeeds into the bootloader but
whose XMODEM ready-wait then fails. -/
def envFlashLeak : FlashEnv :=
  ⟨⟨envZigbee, false, true, true, envBtl⟩, false, true, envZigbee⟩

theorem and127_eq_mod (n : Nat) : n &&& 0x7F = n % 128 := by
  have h := Nat.and_pow_two_sub_one_eq_mod n 7
  norm_num at h
  exact h

theorem and255_eq_mod (n : Nat) : n &&& 0xFF = n % 256 := by
  have h := Nat.and_pow_two_sub_one_eq_mod n 8
  norm_num at h
  exact h

theorem shr7_eq_div (n : Nat) : n >>> 7 = n / 128 := by
  rw [Nat.shiftRight_eq_div_pow]

theorem shr8_eq_div (n : Nat) : n >>> 8 = n / 256 := by
  rw [Nat.shiftRight_eq_div_pow]

theorem or128_and127 : ∀ x < 128, (x ||| 0x80) &&& 0x7F = x := by decide

theorem decode_encodeGo :
    ∀ fuel data, data ≤ fuel → decode_varint (encodeGo fuel data) = data := by
  intro fuel
  induction fuel with
  | zero =>
    intro data h
    have hd : data = 0 := Nat.le_zero.mp h
    subst hd
    rfl
  | succ f ih =>
    intro data h
    match data with
    | 0 => rfl
    | d + 1 =>
      have hpos : 0 < d + 1 := Nat.succ_pos d
      have hdiv : (d + 1) >>> 7 = (d + 1) / 128 := shr7_eq_div (d + 1)
      have hlt : (d + 1) >>> 7 < d + 1 := by
        rw [hdiv]
        exact Nat.div_lt_self hpos (by norm_num)
      have hle : (d + 1) >>> 7 ≤ f := by omega
      have hrec := ih ((d + 1) >>> 7) hle
      by_cases h2 : (d + 1) >>> 7 = 0
      · have hsmall : d + 1 < 128 := by
          rw [hdiv] at h2
          exact (Nat.div_eq_zero_iff (by norm_num)).mp h2
        simp only [encodeGo, h2, ne_eq, not_true_eq_false, if_false,
          decode_varint]
        rw [and127_eq_mod, and127_eq_mod]
        omega
      · have hlt127 : (d + 1) &&& 0x7F < 128 := by
          rw [and127_eq_mod]
          exact Nat.mod_lt _ (by norm_num)
        simp only [encodeGo, h2, ne_eq, not_false_eq_true, if_true,
          decode_varint, hrec]
        rw [or128_and127 _ hlt127, and127_eq_mod, hdiv]
        exact Nat.mod_add_div (d + 1) 128

theorem decode_encode (n : Nat) : decode_varint (encode_i n) = n :=
  decode_encodeGo n n (Nat.le_refl n)

/-- Claim C5: Spinel varint round-trip: for all `n < 2^32`, decoding the
unsigned LEB128 encoding produced by `encode_i` (7 bits per byte,
continuation bit 0x80) yields `n`; and `encode_i 15360` is the two bytes
0x80 0x78. -/
theorem C5_varint_roundtrip :
    (∀ n : Nat, n < 2 ^ 32 → decode_varint (encode_i n) = n) ∧
    encode_i 15360 = [0x80, 0x78] := by
  refine ⟨fun n _ => decode_encode n, ?_⟩
  decide

/-- Witness for C5 at a concrete input. -/
theorem C5_varint_roundtrip_witness :
    decode_varint (encode_i 123456789) = 123456789 :=
  C5_varint_roundtrip.1 123456789 (by norm_num)

/-- Claim C10: `propValueGet` sends the request first and only then
examines the id: for `prop_id > 0xFFFF` it raises (no value is returned)
after sending, for `prop_id ≤ 0xFF` it strips 3 leading bytes of the
response, and for `0xFF < prop_id ≤ 0xFFFF` it strips 4. -/
theorem C10_propValueGet_ranges (p : Nat) (resp : List Nat) :
    (propValueGet p resp).1 = 0x81 :: 0x02 :: encode_i p ∧
    (0xFFFF < p → (propValueGet p resp).2 = none) ∧
    (p ≤ 0xFF → (propValueGet p resp).2 = some (resp.drop 3)) ∧
    (0xFF < p → p ≤ 0xFFFF → (propValueGet p resp).2 = some (resp.drop 4)) := by
  refine ⟨rfl, fun h => ?_, fun h => ?_, fun h1 h2 => ?_⟩
  · simp [propValueGet, h]
  · have h1 : ¬ (0xFFFF < p) := by omega
    have h2 : ¬ (0xFF < p) := by omega
    simp [propValueGet, h1, h2]
  · have h3 : ¬ (0xFFFF < p) := by omega
    simp [propValueGet, h3, h1]

/-- Witness for C10 at concrete inputs in all three ranges. -/
theorem C10_propValueGet_ranges_witness :
    (propValueGet 2 [7, 7, 7, 7, 9]).2 = some [7, 9] ∧
    (propValueGet 0x3C01 [7, 7, 7, 7, 9]).2 = some [9] ∧
    (propValueGet 0x10000 [7, 7, 7, 7, 9]).2 = none := by
  refine ⟨(C10_propValueGet_ranges 2 _).2.2.1 (by norm_num),
    (C10_propValueGet_ranges 0x3C01 _).2.2.2 (by norm_num) (by norm_num),
    (C10_propValueGet_ranges 0x10000 _).2.1 (by norm_num)⟩

/-- Claim C6: EZSP header layout per negotiated version, for a non-empty
command body `c0 :: args` (opcode byte then arguments): versions ≤ 4 give
`[seq, 00, c0, args]`; versions 5–7 give `[seq, 00, FF, 00, c0, args]`;
versions ≥ 8 give `[seq, 00, 01, c0, 00, args]`, the command id in two
little-endian bytes. -/
theorem C6_ezsp_header_layout (seq v c0 : Nat) (args : List Nat)
    (hc : c0 < 256) :
    (v ≤ 4 → (ezspFrameBuilder seq v (c0 :: args)).1
        = seq :: 0x00 :: c0 :: args) ∧
    (5 ≤ v → v ≤ 7 → (ezspFrameBuilder seq v (c0 :: args)).1
        = seq :: 0x00 :: 0xFF :: 0x00 :: c0 :: args) ∧
    (8 ≤ v → (ezspFrameBuilder seq v (c0 :: args)).1
        = seq :: 0x00 :: 0x01 :: c0 :: 0x00 :: args) := by
  refine ⟨fun h4 => ?_, fun h5 h7 => ?_, fun h8 => ?_⟩
  · have n5 : ¬ (5 ≤ v) := by omega
    have n8 : ¬ (8 ≤ v) := by omega
    simp [ezspFrameBuilder, n5, n8]
  · have n8 : ¬ (8 ≤ v) := by omega
    simp [ezspFrameBuilder, h5, n8]
  · have h5 : 5 ≤ v := by omega
    have e1 : c0 &&& 0xFF = c0 := by
      rw [and255_eq_mod]
      exact Nat.mod_eq_of_lt hc
    have e2 : c0 >>> 8 = 0 := by
      rw [shr8_eq_div]
      exact Nat.div_eq_of_lt hc
    simp [ezspFrameBuilder, h5, h8, List.set, e1, e2]

/-- Witness for C6 at concrete inputs. -/
theorem C6_ezsp_header_layout_witness :
    (ezspFrameBuilder 9 4 [0xAA, 0x11]).1 = [9, 0x00, 0xAA, 0x11] ∧
    (ezspFrameBuilder 9 6 [0xAA, 0x11]).1 = [9, 0x00, 0xFF, 0x00, 0xAA, 0x11] ∧
    (ezspFrameBuilder 9 8 [0xAA, 0x11]).1 = [9, 0x00, 0x01, 0xAA, 0x00, 0x11] := by
  refine ⟨(C6_ezsp_header_layout 9 4 0xAA [0x11] (by norm_num)).1 (by norm_num),
    (C6_ezsp_header_layout 9 6 0xAA [0x11] (by norm_num)).2.1 (by norm_num)
      (by norm_num),
    (C6_ezsp_header_layout 9 8 0xAA [0x11] (by norm_num)).2.2 (by norm_num)⟩

theorem ashRun_counts (frames : List (List Nat)) :
    ∀ a fr : Nat, fr < 8 → a < 8 →
      (ashRun ⟨a, fr⟩ frames).frmNum = (fr + frames.length) % 8 ∧
      (ashRun ⟨a, fr⟩ frames).ackNum = (a + frames.length) % 8 := by
  induction frames with
  | nil =>
    intro a fr h1 h2
    refine ⟨?_, ?_⟩ <;> simp [ashRun] <;> omega
  | cons f t ih =>
    intro a fr h1 h2
    have step : ashRun ⟨a, fr⟩ (f :: t)
        = ashRun ⟨(a + 1) % 8, (fr + 1) % 8⟩ t := rfl
    rw [step]
    have h := ih ((a + 1) % 8) ((fr + 1) % 8)
      (Nat.mod_lt _ (by norm_num)) (Nat.mod_lt _ (by norm_num))
    simp only [List.length_cons]
    refine ⟨?_, ?_⟩
    · rw [h.1]
      omega
    · rw [h.2]
      omega

theorem ezspSeqRun_mod (cmds : List (List Nat)) :
    ∀ seq v : Nat, seq < 255 →
      ezspSeqRun seq v cmds = (seq + cmds.length) % 255 := by
  induction cmds with
  | nil =>
    intro seq v h
    simp [ezspSeqRun]
    omega
  | cons c t ih =>
    intro seq v h
    have step : ezspSeqRun seq v (c :: t) = ezspSeqRun ((seq + 1) % 255) v t := rfl
    rw [step, ih _ v (Nat.mod_lt _ (by norm_num))]
    simp only [List.length_cons]
    omega

/-- Claim C7: `ackNum`, `frmNum` and `sequenceNum` start at 0; every call
to `ashFrameBuilder` advances both ASH counters by exactly one modulo 8
while `sendAck` changes neither; after 8 DATA frames `frmNum` is 0 again;
`ezspFrameBuilder` advances `sequenceNum` modulo 255, so after 255 EZSP
commands it returns to 0. -/
theorem C7_counter_invariants :
    (ashInit.ackNum = 0 ∧ ashInit.frmNum = 0 ∧ ezspInitSeq = 0) ∧
    (∀ (s : AshState) (frame : List Nat),
      (ashFrameBuilder s frame).2
        = ⟨(s.ackNum + 1) % 8, (s.frmNum + 1) % 8⟩) ∧
    (∀ (s : AshState) (a : Nat), (sendAck s a).2 = s) ∧
    (∀ frames : List (List Nat), frames.length = 8 →
      (ashRun ashInit frames).frmNum = 0 ∧ (ashRun ashInit frames).ackNum = 0) ∧
    (∀ (seq v : Nat) (c : List Nat),
      (ezspFrameBuilder seq v c).2 = (seq + 1) % 255) ∧
    (∀ (cmds : List (List Nat)) (v : Nat), cmds.length = 255 →
      ezspSeqRun 0 v cmds = 0) := by
  refine ⟨⟨rfl, rfl, rfl⟩, fun s frame => rfl, fun s a => rfl,
    fun frames h8 => ?_, fun seq v c => rfl, fun cmds v h255 => ?_⟩
  · have hrun : ashRun ashInit frames = ashRun ⟨0, 0⟩ frames := rfl
    have h := ashRun_counts frames 0 0 (by norm_num) (by norm_num)
    rw [h8] at h
    rw [hrun, h.1, h.2]
    exact ⟨rfl, rfl⟩
  · rw [ezspSeqRun_mod cmds 0 v (by norm_num), h255]

/-- Witness for C7: the counter wrap at concrete runs of 8 ASH frames and
255 EZSP commands. -/
theorem C7_counter_invariants_witness :
    (ashRun ashInit (List.replicate 8 [])).frmNum = 0 ∧
    ezspSeqRun 0 4 (List.replicate 255 []) = 0 := by
  refine ⟨(C7_counter_invariants.2.2.2.1 (List.replicate 8 [])
      (List.length_replicate 8 [])).1,
    C7_counter_invariants.2.2.2.2.2 (List.replicate 255 []) 4
      (List.length_replicate 255 [])⟩

theorem replace1_append (a : Nat) (r s t : List Nat) :
    replace1 a r (s ++ t) = replace1 a r s ++ replace1 a r t := by
  induction s with
  | nil => rfl
  | cons c s2 ih => by_cases h : c = a <;> simp [replace1, h, ih]

theorem stuff_append (s t : List Nat) :
    replaceReservedBytes (s ++ t)
      = replaceReservedBytes s ++ replaceReservedBytes t := by
  simp [replaceReservedBytes, replace1_append]

theorem stuff_byte (b : Nat) : replaceReservedBytes [b] = codeP [] b := by
  by_cases h1 : b = 0x7D
  · subst h1; decide
  by_cases h2 : b = 0x7E
  · subst h2; decide
  by_cases h3 : b = 0x11
  · subst h3; decide
  by_cases h4 : b = 0x13
  · subst h4; decide
  by_cases h5 : b = 0x18
  · subst h5; decide
  by_cases h6 : b = 0x1A
  · subst h6; decide
  have e : escTail b = none := by simp [escTail, h1, h2, h3, h4, h5, h6]
  have hc : codeP [] b = [b] := by simp [codeP, e]
  rw [hc]
  simp [replaceReservedBytes, replace1, h1, h2, h3, h4, h5, h6]

theorem stuff_eq (x : List Nat) :
    replaceReservedBytes x = (x.map (codeP [])).flatten := by
  induction x with
  | nil => rfl
  | cons b t ih =>
    have hsplit : b :: t = [b] ++ t := rfl
    rw [hsplit, stuff_append, stuff_byte, ih]
    simp

theorem replace2_cons_ne (a b : Nat) (r : List Nat) (c : Nat) (s : List Nat)
    (h : c ≠ a) : replace2 a b r (c :: s) = c :: replace2 a b r s := by
  cases s with
  | nil => rfl
  | cons d t => simp [replace2, h]

theorem replace2_chunks (y raw : Nat) (L : List (List Nat))
    (h : Chunks y L) :
    replace2 0x7D y [raw] L.flatten
      = (L.map fun c => if c = [0x7D, y] then [raw] else c).flatten := by
  induction h with
  | nil => rfl
  | esc z L hz hL ih =>
    by_cases hzy : z = y
    · subst hzy
      have e1 : ([0x7D, z] :: L).flatten = 0x7D :: z :: L.flatten := rfl
      have e2 : replace2 0x7D z [raw] (0x7D :: z :: L.flatten)
          = [raw] ++ replace2 0x7D z [raw] L.flatten := by
        simp [replace2]
      have e3 : (([0x7D, z] :: L).map
            fun c => if c = [0x7D, z] then [raw] else c).flatten
          = [raw] ++ (L.map fun c => if c = [0x7D, z] then [raw] else c).flatten := by
        simp
      rw [e1, e2, ih, e3]
    · have e1 : ([0x7D, z] :: L).flatten = 0x7D :: z :: L.flatten := rfl
      have e2 : replace2 0x7D y [raw] (0x7D :: z :: L.flatten)
          = 0x7D :: replace2 0x7D y [raw] (z :: L.flatten) := by
        simp [replace2, hzy]
      have e3 : (([0x7D, z] :: L).map
            fun c => if c = [0x7D, y] then [raw] else c).flatten
          = 0x7D :: z :: (L.map fun c => if c = [0x7D, y] then [raw] else c).flatten := by
        simp [hzy]
      rw [e1, e2, replace2_cons_ne 0x7D y [raw] z L.flatten hz, ih, e3]
  | plain c L hc hL ih =>
    have e1 : (([c] : List Nat) :: L).flatten = c :: L.flatten := rfl
    have e3 : ((([c] : List Nat) :: L).map
          fun d => if d = [0x7D, y] then [raw] else d).flatten
        = c :: (L.map fun d => if d = [0x7D, y] then [raw] else d).flatten := by
      simp
    rw [e1, replace2_cons_ne 0x7D y [raw] c L.flatten hc, ih, e3]
  | lone L hL hhead ih =>
    have e1 : (([0x7D] : List Nat) :: L).flatten = 0x7D :: L.flatten := rfl
    have e3 : ((([0x7D] : List Nat) :: L).map
          fun d => if d = [0x7D, y] then [raw] else d).flatten
        = 0x7D :: (L.map fun d => if d = [0x7D, y] then [raw] else d).flatten := by
      simp
    rw [e1, e3, ← ih]
    rcases hJ : L.flatten with _ | ⟨d, t⟩
    · rfl
    · rw [hJ] at hhead
      have hd : d ≠ y := fun he => hhead (by simp [he])
      simp [replace2, hd]

theorem escTail_some_ne7D (b z : Nat) (h : escTail b = some z) : z ≠ 0x7D := by
  unfold escTail at h
  split_ifs at h
  all_goals
    first
      | exact Option.noConfusion h
      | (simp only [Option.some.injEq] at h; subst h; decide)

theorem escTail_some_mem (b z : Nat) (h : escTail b = some z) :
    z ∈ [0x3A, 0x38, 0x33, 0x31, 0x5E, 0x5D] := by
  unfold escTail at h
  split_ifs at h
  all_goals
    first
      | exact Option.noConfusion h
      | (simp only [Option.some.injEq] at h; subst h; decide)

theorem escTail_none_ne (b : Nat) (h : escTail b = none) : b ≠ 0x7D := by
  intro hb
  rw [hb] at h
  exact absurd h (by decide)

theorem goodAsh_tail (a : Nat) (t : List Nat) (h : goodAsh (a :: t) = true) :
    goodAsh t = true := by
  cases t with
  | nil => rfl
  | cons b t2 =>
    have hu : goodAsh (a :: b :: t2)
        = ((decide (¬(a = 0x7D ∧ b ∈ forb))) && goodAsh (b :: t2)) := rfl
    rw [hu, Bool.and_eq_true] at h
    exact h.2

theorem goodAsh_head (b2 : Nat) (t2 : List Nat)
    (h : goodAsh (0x7D :: b2 :: t2) = true) : b2 ∉ forb := by
  have hu : goodAsh (0x7D :: b2 :: t2)
      = ((decide (¬((0x7D:Nat) = 0x7D ∧ b2 ∈ forb))) && goodAsh (b2 :: t2)) := rfl
  rw [hu, Bool.and_eq_true, decide_eq_true_eq] at h
  exact fun hb => h.1 ⟨rfl, hb⟩

theorem chunks_code_nil (y : Nat) (x : List Nat) :
    Chunks y (x.map (codeP [])) := by
  induction x with
  | nil => exact Chunks.nil
  | cons b t ih =>
    rcases h : escTail b with _ | z
    · have hb : b ≠ 0x7D := escTail_none_ne b h
      have hc : codeP [] b = [b] := by simp [codeP, h]
      rw [List.map_cons, hc]
      exact Chunks.plain b _ hb ih
    · have hc : codeP [] b = [0x7D, z] := by simp [codeP, h]
      rw [List.map_cons, hc]
      exact Chunks.esc z _ (escTail_some_ne7D b z h) ih

theorem chunks_codeP (y : Nat) (hy : y ∈ forb) (P : List Nat)
    (x : List Nat) (hx : goodAsh x = true) :
    Chunks y (x.map (codeP P)) := by
  have hy7 : y ≠ 0x7D := by
    intro he
    exact absurd (he ▸ hy) (by decide)
  induction x with
  | nil => exact Chunks.nil
  | cons b t ih =>
    have ht : goodAsh t = true := goodAsh_tail b t hx
    have iht := ih ht
    rcases h : escTail b with _ | z
    · have hb : b ≠ 0x7D := escTail_none_ne b h
      have hc : codeP P b = [b] := by simp [codeP, h]
      rw [List.map_cons, hc]
      exact Chunks.plain b _ hb iht
    · by_cases hz : z ∈ P
      · have hc : codeP P b = [b] := by simp [codeP, h, hz]
        by_cases hb : b = 0x7D
        · subst hb
          rw [List.map_cons, hc]
          refine Chunks.lone _ iht ?_
          cases t with
          | nil => simp
          | cons b2 t2 =>
            have hb2 : b2 ∉ forb := goodAsh_head b2 t2 hx
            have hb2y : b2 ≠ y := fun he => hb2 (he ▸ hy)
            rcases h2 : escTail b2 with _ | z2
            · have hc2 : codeP P b2 = [b2] := by simp [codeP, h2]
              simp [hc2, hb2y]
            · by_cases hz2 : z2 ∈ P
              · have hc2 : codeP P b2 = [b2] := by simp [codeP, h2, hz2]
                simp [hc2, hb2y]
              · have hc2 : codeP P b2 = [0x7D, z2] := by
                  simp [codeP, h2, hz2]
                simp [hc2]
                exact fun he => hy7 he.symm
        · rw [List.map_cons, hc]
          exact Chunks.plain b _ hb iht
      · have hc : codeP P b = [0x7D, z] := by simp [codeP, h, hz]
        rw [List.map_cons, hc]
        exact Chunks.esc z _ (escTail_some_ne7D b z h) iht

theorem codeP_subst (P : List Nat) (y raw : Nat)
    (hinj : ∀ b t, escTail b = some t → (t = y ↔ b = raw)) (b : Nat) :
    (if codeP P b = [0x7D, y] then [raw] else codeP P b)
      = codeP (y :: P) b := by
  rcases h : escTail b with _ | z
  · have hc : codeP P b = [b] := by simp [codeP, h]
    have hc2 : codeP (y :: P) b = [b] := by simp [codeP, h]
    rw [hc, hc2, if_neg (by simp)]
  · by_cases hz : z ∈ P
    · have hc : codeP P b = [b] := by simp [codeP, h, hz]
      have hc2 : codeP (y :: P) b = [b] := by
        simp [codeP, h, List.mem_cons, hz]
      rw [hc, hc2, if_neg (by simp)]
    · by_cases hzy : z = y
      · subst hzy
        have hb : b = raw := (hinj b z h).mp rfl
        have hc : codeP P b = [0x7D, z] := by simp [codeP, h, hz]
        have hc2 : codeP (z :: P) b = [b] := by simp [codeP, h]
        rw [hc, hc2, if_pos rfl, hb]
      · have hc : codeP P b = [0x7D, z] := by simp [codeP, h, hz]
        have hc2 : codeP (y :: P) b = [0x7D, z] := by
          simp [codeP, h, List.mem_cons, hzy, hz]
        rw [hc, hc2, if_neg (by simp [hzy])]

theorem codeP_full (b : Nat) :
    codeP [0x3A, 0x38, 0x33, 0x31, 0x5E, 0x5D] b = [b] := by
  rcases h : escTail b with _ | z
  · simp [codeP, h]
  · have hz : z ∈ ([0x3A, 0x38, 0x33, 0x31, 0x5E, 0x5D] : List Nat) :=
      escTail_some_mem b z h
    simp [codeP, h, hz]

theorem join_map_singleton (x : List Nat) :
    (x.map fun b => ([b] : List Nat)).flatten = x := by
  induction x <;> simp [*]

theorem unstuff_stuff (x : List Nat) (hx : goodAsh x = true) :
    revertEscapedBytes (replaceReservedBytes x) = x := by
  have hinj1 : ∀ b t, escTail b = some t → (t = 0x5D ↔ b = 0x7D) := by
    intro b t h
    unfold escTail at h
    split_ifs at h
    all_goals
      first
        | exact Option.noConfusion h
        | (simp only [Option.some.injEq] at h; subst h; simp_all)
  have hinj2 : ∀ b t, escTail b = some t → (t = 0x5E ↔ b = 0x7E) := by
    intro b t h
    unfold escTail at h
    split_ifs at h
    all_goals
      first
        | exact Option.noConfusion h
        | (simp only [Option.some.injEq] at h; subst h; simp_all)
  have hinj3 : ∀ b t, escTail b = some t → (t = 0x31 ↔ b = 0x11) := by
    intro b t h
    unfold escTail at h
    split_ifs at h
    all_goals
      first
        | exact Option.noConfusion h
        | (simp only [Option.some.injEq] at h; subst h; simp_all)
  have hinj4 : ∀ b t, escTail b = some t → (t = 0x33 ↔ b = 0x13) := by
    intro b t h
    unfold escTail at h
    split_ifs at h
    all_goals
      first
        | exact Option.noConfusion h
        | (simp only [Option.some.injEq] at h; subst h; simp_all)
  have hinj5 : ∀ b t, escTail b = some t → (t = 0x38 ↔ b = 0x18) := by
    intro b t h
    unfold escTail at h
    split_ifs at h
    all_goals
      first
        | exact Option.noConfusion h
        | (simp only [Option.some.injEq] at h; subst h; simp_all)
  have hinj6 : ∀ b t, escTail b = some t → (t = 0x3A ↔ b = 0x1A) := by
    intro b t h
    unfold escTail at h
    split_ifs at h
    all_goals
      first
        | exact Option.noConfusion h
        | (simp only [Option.some.injEq] at h; subst h; simp_all)
  unfold revertEscapedBytes
  rw [stuff_eq]
  rw [replace2_chunks 0x5D 0x7D _ (chunks_code_nil 0x5D x), List.map_map]
  simp only [Function.comp_def]
  rw [funext (codeP_subst [] 0x5D 0x7D hinj1)]
  rw [replace2_chunks 0x5E 0x7E _ (chunks_codeP 0x5E (by decide) _ x hx),
    List.map_map]
  simp only [Function.comp_def]
  rw [funext (codeP_subst [0x5D] 0x5E 0x7E hinj2)]
  rw [replace2_chunks 0x31 0x11 _ (chunks_codeP 0x31 (by decide) _ x hx),
    List.map_map]
  simp only [Function.comp_def]
  rw [funext (codeP_subst [0x5E, 0x5D] 0x31 0x11 hinj3)]
  rw [replace2_chunks 0x33 0x13 _ (chunks_codeP 0x33 (by decide) _ x hx),
    List.map_map]
  simp only [Function.comp_def]
  rw [funext (codeP_subst [0x31, 0x5E, 0x5D] 0x33 0x13 hinj4)]
  rw [replace2_chunks 0x38 0x18 _ (chunks_codeP 0x38 (by decide) _ x hx),
    List.map_map]
  simp only [Function.comp_def]
  rw [funext (codeP_subst [0x33, 0x31, 0x5E, 0x5D] 0x38 0x18 hinj5)]
  rw [replace2_chunks 0x3A 0x1A _ (chunks_codeP 0x3A (by decide) _ x hx),
    List.map_map]
  simp only [Function.comp_def]
  rw [funext (codeP_subst [0x38, 0x33, 0x31, 0x5E, 0x5D] 0x3A 0x1A hinj6)]
  rw [funext codeP_full, join_map_singleton]

theorem stuff_no_flag (x : List Nat) : 0x7E ∉ replaceReservedBytes x := by
  rw [stuff_eq]
  intro hmem
  rw [List.mem_flatten] at hmem
  obtain ⟨c, hc, hbc⟩ := hmem
  rw [List.mem_map] at hc
  obtain ⟨b, _, hb⟩ := hc
  rcases h : escTail b with _ | z
  · have hcb : c = [b] := by rw [← hb]; simp [codeP, h]
    subst hcb
    have hbe : (0x7E : Nat) = b := by simpa using hbc
    rw [← hbe] at h
    exact absurd h (by decide)
  · have hcb : c = [0x7D, z] := by rw [← hb]; simp [codeP, h]
    subst hcb
    have hz := escTail_some_mem b z h
    simp only [List.mem_cons, List.not_mem_nil, or_false] at hz hbc
    rcases hz with rfl | rfl | rfl | rfl | rfl | rfl <;> revert hbc <;> decide

/-- Claim C1, counterexample: the round trip fails on the two-byte string
7D 5E: it stuffs to 7D 5D 5E, which the sequential un-escape replaces
collapse to the single byte 7E. -/
theorem C1_counterexample :
    revertEscapedBytes (replaceReservedBytes [0x7D, 0x5E]) = [0x7E] ∧
    revertEscapedBytes (replaceReservedBytes [0x7D, 0x5E]) ≠ [0x7D, 0x5E] := by
  decide

/-- Claim C1, amended: for every byte string `x` in which no 0x7D byte is
immediately followed by one of 0x5E, 0x31, 0x33, 0x38, 0x3A, the ASH
byte-stuffing round-trips
(`revertEscapedBytes (replaceReservedBytes x) = x`) per the escape table
(7D→7D5D, 7E→7D5E, 11→7D31, 13→7D33, 18→7D38, 1A→7D3A); and
`replaceReservedBytes x` contains the byte 0x7E only if `x` does (in fact
never). -/
theorem C1_ash_stuffing_roundtrip (x : List Nat) (hx : goodAsh x = true) :
    revertEscapedBytes (replaceReservedBytes x) = x ∧
    (0x7E ∈ replaceReservedBytes x → 0x7E ∈ x) :=
  ⟨unstuff_stuff x hx, fun h => absurd h (stuff_no_flag x)⟩

/-- Witness for C1 on a concrete string containing every reserved byte. -/
theorem C1_ash_stuffing_roundtrip_witness :
    revertEscapedBytes
        (replaceReservedBytes [0x00, 0x7D, 0x00, 0x7E, 0x11, 0x13, 0x18, 0x1A, 0x42])
      = [0x00, 0x7D, 0x00, 0x7E, 0x11, 0x13, 0x18, 0x1A, 0x42] :=
  (C1_ash_stuffing_roundtrip _ (by decide)).1

/-- Claim C4, counterexample: a 0x41 byte ahead of a well-formed empty
frame is not discarded: the receive loop accumulates it into the packet
and the running FCS, so `getResponse` fails where the claim predicts the
frame between the flags would be returned. -/
theorem C4_counterexample :
    hdlcGetResponse [0x41, 0x7E, 0x00, 0x00, 0x7E] = none ∧
    hdlcGetResponse [0x7E, 0x00, 0x00, 0x7E] = some [] := by
  decide

/-- Claim C4, amended: `getResponse` ignores leading 0x7E flag bytes
(receiving `7E :: s` equals receiving `s`), but a non-flag, non-escape
byte ahead of the first flag is not discarded: it starts packet
accumulation (entering the running FCS), which ends at the next 0x7E. -/
theorem C4_hdlc_receive (s : List Nat) :
    hdlcGetResponse (0x7E :: s) = hdlcGetResponse s ∧
    (∀ b fcs, b ≠ 0x7E → b ≠ 0x7D →
      hdlcLoop (b :: s) [] fcs = hdlcLoop s [b] (fcs16 b fcs)) := by
  refine ⟨?_, fun b fcs h1 h2 => ?_⟩
  · have h : hdlcLoop (0x7E :: s) [] HDLC_FCS_INIT
        = hdlcLoop s [] HDLC_FCS_INIT := by
      rw [hdlcLoop.eq_def]
      simp [HDLC_FLAG]
    simp only [hdlcGetResponse, h]
  · rw [hdlcLoop.eq_def]
    simp [HDLC_FLAG, HDLC_ESCAPE, h1, h2]

/-- Witness for C4 at concrete streams. -/
theorem C4_hdlc_receive_witness :
    hdlcGetResponse [0x7E, 0x00, 0x00, 0x7E]
        = hdlcGetResponse [0x00, 0x00, 0x7E] ∧
    hdlcLoop [0x41, 0x7E] [] 0xFFFF
        = hdlcLoop [0x7E] [0x41] (fcs16 0x41 0xFFFF) :=
  ⟨(C4_hdlc_receive [0x00, 0x00, 0x7E]).1,
   (C4_hdlc_receive [0x7E]).2 0x41 0xFFFF (by decide) (by decide)⟩

/-- Claim C8, counterexample: the filename "a.gbl.x" does not end in
".gbl" or ".ebl", yet flash does not fail with InvalidImage: the source
tests substring containment, so this run proceeds to bootloader entry and
opens the serial port. -/
theorem C8_counterexample :
    endsWithSpec GBL [0x61, 0x2E, 0x67, 0x62, 0x6C, 0x2E, 0x78] = false ∧
    endsWithSpec EBL [0x61, 0x2E, 0x67, 0x62, 0x6C, 0x2E, 0x78] = false ∧
    SessEv.opn ∈ (flashModel [0x61, 0x2E, 0x67, 0x62, 0x6C, 0x2E, 0x78]
        envFlashLeak).2 := by
  decide

/-- Claim C8, amended: for every filename containing neither ".gbl" nor
".ebl" as a substring, flash fails with InvalidImage (logs and returns
None) without attempting bootloader entry, opening the serial port, or
transferring anything — the event trace is empty.  Filenames that merely
contain (without ending in) one of the extensions pass the check. -/
theorem C8_invalid_image (f : List Nat) (e : FlashEnv)
    (h1 : hasSub GBL f = false) (h2 : hasSub EBL f = false) :
    flashModel f e = (PyRet.retNone, []) := by
  simp [flashModel, flashCore, h1, h2]

/-- Witness for C8 at the filename "a.txt". -/
theorem C8_invalid_image_witness :
    flashModel [0x61, 0x2E, 0x74, 0x78, 0x74] envFlashLeak
      = (PyRet.retNone, []) :=
  C8_invalid_image _ _ (by decide) (by decide)

theorem balanced_append (a b : List SessEv) (ha : balanced a = true)
    (hb : balanced b = true) : balanced (a ++ b) = true := by
  simp only [balanced, countOpn, countCls, List.count_append,
    beq_iff_eq] at ha hb ⊢
  omega

theorem probe_balanced (e : ProbeEnv) (h : (probeModel e).1 ≠ ProbeOut.exn) :
    balanced (probeModel e).2 = true := by
  rcases e with ⟨a, b1, c, d, el, f, g⟩
  cases a <;> cases b1 <;> cases c <;> cases d <;> cases el <;> cases f <;>
    cases g <;>
    first
      | exact absurd rfl h
      | decide

theorem restartCore_balanced (btl zg lk sp : Bool) (st : AdapterStatus)
    (hasName : Bool) (o2 : ProbeOut) (ev1 ev2 : List SessEv)
    (hb1 : balanced ev1 = true)
    (hb2 : o2 ≠ ProbeOut.exn → balanced ev2 = true)
    (hx : (restartCore btl (ProbeOut.ret st hasName, ev1) zg lk sp
        (o2, ev2)).1 ≠ PyRet.exn)
    (hn : ¬(btl = true ∧ st = AdapterStatus.thread ∧ hasName = false)) :
    balanced (restartCore btl (ProbeOut.ret st hasName, ev1) zg lk sp
      (o2, ev2)).2 = true := by
  have hocl : balanced ([SessEv.opn, SessEv.cls] : List SessEv) = true := by
    decide
  have h2 : balanced (ev1 ++ [SessEv.opn, SessEv.cls]) = true :=
    balanced_append _ _ hb1 hocl
  cases st <;> cases btl <;> cases zg <;> cases lk <;> cases sp <;>
    cases hasName <;> cases o2 <;>
    first
      | exact (hx rfl).elim
      | exact (hn ⟨rfl, rfl, rfl⟩).elim
      | exact hb1
      | exact h2
      | exact balanced_append _ _ h2 (hb2 (fun hc => ProbeOut.noConfusion hc))

theorem restart_balanced (b : Bool) (r : RestartEnv)
    (hx : (restartModel b r).1 ≠ PyRet.exn)
    (hn : ¬(b = true ∧ (probeModel r.p1).1
        = ProbeOut.ret AdapterStatus.thread false)) :
    balanced (restartModel b r).2 = true := by
  rcases hp1 : probeModel r.p1 with ⟨o1, ev1⟩
  rcases hp2 : probeModel r.p2 with ⟨o2, ev2⟩
  unfold restartModel at hx ⊢
  rw [hp1, hp2] at hx ⊢
  cases o1 with
  | exn => exact absurd rfl hx
  | ret st hasName =>
    have hb1 : balanced ev1 = true := by
      have h := probe_balanced r.p1 (by rw [hp1]; simp)
      rw [hp1] at h
      exact h
    have hb2 : o2 ≠ ProbeOut.exn → balanced ev2 = true := by
      intro ho2
      have h := probe_balanced r.p2 (by rw [hp2]; exact ho2)
      rw [hp2] at h
      exact h
    refine restartCore_balanced b r.zgRaise r.launchOk r.sp2Ok st hasName o2
      ev1 ev2 hb1 hb2 hx ?_
    rintro ⟨hbtl, hst, hnm⟩
    refine hn ⟨hbtl, ?_⟩
    rw [hp1, hst, hnm]

/-- Claim C9, amended: probe closes the session on every exit path on
which no EZSP/Spinel command raises; restart does so too except on the
Thread-adapter-without-board-name path (which returns -1 with the port
open); flash closes only on the full-success path — when the XMODEM
ready-wait fails (and likewise when the upload fails) it returns with the
port it opened still open, one close short. -/
theorem C9_session_scoping :
    (∀ e : ProbeEnv, (probeModel e).1 ≠ ProbeOut.exn →
      balanced (probeModel e).2 = true) ∧
    (∀ (b : Bool) (r : RestartEnv), (restartModel b r).1 ≠ PyRet.exn →
      ¬(b = true ∧ (probeModel r.p1).1
          = ProbeOut.ret AdapterStatus.thread false) →
      balanced (restartModel b r).2 = true) ∧
    (∀ (f : List Nat) (e : FlashEnv),
      (restartModel true e.r).1 = PyRet.ret 0 →
      balanced (restartModel true e.r).2 = true →
      e.readyOk = true → e.sendOk = true →
      (probeModel e.p3).1 ≠ ProbeOut.exn →
      balanced (flashModel f e).2 = true) ∧
    (∀ (f : List Nat) (e : FlashEnv),
      hasSub GBL f = true →
      (restartModel true e.r).1 = PyRet.ret 0 →
      balanced (restartModel true e.r).2 = true →
      e.readyOk = false →
      countOpn (flashModel f e).2 = countCls (flashModel f e).2 + 1) := by
  refine ⟨probe_balanced, restart_balanced, ?_, ?_⟩
  · intro f e h0 hb hr hs hp3
    unfold flashModel
    rcases hrm : restartModel true e.r with ⟨rr, evR⟩
    rw [hrm] at h0 hb
    simp only at h0
    subst h0
    rcases hp3e : probeModel e.p3 with ⟨o3, ev3⟩
    rw [hp3e] at hp3
    simp only at hp3
    have hbR : List.count SessEv.opn evR = List.count SessEv.cls evR := by
      simpa [balanced, countOpn, countCls, beq_iff_eq] using hb
    by_cases hv : (hasSub GBL f || hasSub EBL f) = true
    · cases o3 with
      | exn => exact absurd rfl hp3
      | ret st3 f3 =>
        have hb3 : balanced ev3 = true := by
          have h := probe_balanced e.p3 (by rw [hp3e]; simp)
          rw [hp3e] at h
          exact h
        have hb3' : List.count SessEv.opn ev3 = List.count SessEv.cls ev3 := by
          simpa [balanced, countOpn, countCls, beq_iff_eq] using hb3
        simp only [flashCore, flashUploadCore, hv, hr, hs, not_true,
          Bool.not_true, if_false, ite_false, ite_true]
        simp [balanced, countOpn, countCls, List.count_append, beq_iff_eq]
        omega
    · have hv' : (hasSub GBL f || hasSub EBL f) = false := by
        simpa using hv
      simp [flashCore, hv', balanced, countOpn, countCls]
  · intro f e hg h0 hb hready
    have hv : (hasSub GBL f || hasSub EBL f) = true := by simp [hg]
    unfold flashModel
    rcases hrm : restartModel true e.r with ⟨rr, evR⟩
    rw [hrm] at h0 hb
    simp only at h0
    subst h0
    have hbR : List.count SessEv.opn evR = List.count SessEv.cls evR := by
      simpa [balanced, countOpn, countCls, beq_iff_eq] using hb
    simp only [flashCore, flashUploadCore, hv, hready, Bool.not_false,
      if_true, ite_true, ite_false]
    simp [countOpn, countCls, List.count_append]
    omega

/-- Witness for C9: the flash leak bound applied at a concrete run. -/
theorem C9_session_scoping_witness :
    countOpn (flashModel [0x61, 0x2E, 0x67, 0x62, 0x6C] envFlashLeak).2
      = countCls (flashModel [0x61, 0x2E, 0x67, 0x62, 0x6C] envFlashLeak).2
        + 1 :=
  C9_session_scoping.2.2.2 [0x61, 0x2E, 0x67, 0x62, 0x6C] envFlashLeak
    (by decide) (by decide) (by decide) rfl

/-- Claim C9, counterexample: a concrete flash run (valid image name,
successful restart into the bootloader, XMODEM ready-wait failure)
returns with four opens but only three closes: the session flash opened
is not closed on its ready-wait-failure exit path. -/
theorem C9_counterexample :
    countOpn (flashModel [0x61, 0x2E, 0x67, 0x62, 0x6C] envFlashLeak).2 = 4 ∧
    countCls (flashModel [0x61, 0x2E, 0x67, 0x62, 0x6C] envFlashLeak).2 = 3 := by
  decide

end Elelabs
